import Mathlib

/-!
Verification of the request dispatch and aggregation engine of an HTTP
proxy for MCP ("Model Context Protocol") backends, shallowly embedded in
Lean from the Go sources.

The embedding models:
- the flat-mode aggregation (`listAllTools`) and routing (`callToolAuto`)
  algorithms of the current server snapshot,
- the per-backend operation cache with TTL (`getToolsWithCache`),
- the readiness gate and request pipeline (`processRequest`,
  `handleJSONRPC`, `handleReadiness`),
- the earlier snapshot's flat-mode handler with its path gate
  (`handleFlatModeV0`),
- the split-mode tools/call handler (`splitHandleToolsCall`),
- the per-backend allow/deny tool policy (`isToolAllowed`).

Backend catalog fetches and tool invocations are abstracted as outcome
values (the wire transports are external collaborators); machine state
that Go keeps in maps is represented by association lists, and wall-clock
time by an explicit natural-number parameter.
-/

/-- An operation (tool) exposed by a backend: a name plus its definition
payload (description and input schema collapsed into one field, which the
engine treats as opaque and never inspects). Mirrors `mcp.Tool` as used by
the proxy. -/
structure Tool where
  name : String
  payload : String
deriving DecidableEq, Repr

/-- A loosely typed JSON parameter value, as stored in Go's
`map[string]interface{}` request params. Object payloads are kept flat
(field name to printed value) because the engine forwards them opaquely. -/
inductive JValue where
  | str (s : String)
  | num (n : Int)
  | boolean (b : Bool)
  | null
  | obj (fields : List (String × String))
deriving DecidableEq, Repr

/-- The request `params` bag: Go's `map[string]interface{}`. -/
abbrev Params := List (String × JValue)

/-- Map lookup on an association list, first binding wins (a Go map has
unique keys, so on well-formed states this is exact). -/
def alookup {β : Type} (m : List (String × β)) (k : String) : Option β :=
  (m.find? (fun p => p.1 == k)).map (fun p => p.2)

/-- Go's type assertion `v.(string)` viewed as a partial operation. -/
def asString : JValue → Option String
  | .str s => some s
  | _ => none

/-- Go's type assertion `v.(map[string]interface{})` viewed as a partial
operation (object payloads are the flattened field list). -/
def asObj : JValue → Option (List (String × String))
  | .obj f => some f
  | _ => none

/-- `params["name"].(string)` with the comma-ok form: `some` when the key
is present and holds a string, `none` otherwise. -/
def getString (params : Params) (k : String) : Option String :=
  (alookup params k).bind asString

/-- The `arguments` extraction shared by both tools/call paths:
`args, _ := params["arguments"].(map[string]interface{})`, with a fallback
to the empty map when the key is absent or ill-typed. -/
def getArgs (params : Params) : List (String × String) :=
  ((alookup params "arguments").bind asObj).getD []

/-- Computable lexicographic comparison of character lists; `true` when
the first list is at most the second in code point order (for Go strings
this coincides with byte order, since UTF-8 preserves code point order). -/
def charsLe : List Char → List Char → Bool
  | [], _ => true
  | _ :: _, [] => false
  | c :: cs, d :: ds =>
    if c < d then true else if d < c then false else charsLe cs ds

/-- Computable string comparison used by the sorting model; proved below
to agree with the standard linear order on strings. -/
def strLe (x y : String) : Bool :=
  charsLe x.toList y.toList

theorem charsLe_iff_not_lt (cs : List Char) : ∀ ds : List Char,
    charsLe cs ds = true ↔ ¬ List.lt ds cs := by
  induction cs with
  | nil =>
    intro ds
    cases ds with
    | nil =>
      simp only [charsLe, true_iff]
      intro h
      cases h
    | cons d ds =>
      simp only [charsLe, true_iff]
      intro h
      cases h
  | cons c cs ih =>
    intro ds
    cases ds with
    | nil =>
      simp only [charsLe, Bool.false_eq_true, false_iff, not_not]
      exact List.lt.nil c cs
    | cons d ds =>
      by_cases hcd : c < d
      · have hdc : ¬ d < c := lt_asymm hcd
        simp only [charsLe, if_pos hcd, true_iff]
        intro h
        cases h with
        | head _ _ hh => exact hdc hh
        | tail h1 h2 h3 => exact h2 hcd
      · by_cases hdc : d < c
        · simp only [charsLe, if_neg hcd, if_pos hdc, Bool.false_eq_true,
            false_iff, not_not]
          exact List.lt.head ds cs hdc
        · simp only [charsLe, if_neg hcd, if_neg hdc, ih ds]
          constructor
          · intro h hlt
            cases hlt with
            | head _ _ hh => exact hdc hh
            | tail _ _ h3 => exact h h3
          · intro h hlt
            exact h (List.lt.tail hdc hcd hlt)

theorem strLe_iff (x y : String) : strLe x y = true ↔ x ≤ y := by
  rw [strLe, charsLe_iff_not_lt, String.le_iff_toList_le,
    List.lt_iff_lex_lt]
  constructor
  · intro h
    exact not_lt.mp h
  · intro h
    exact not_lt.mpr h

theorem strLe_false (x y : String) (h : strLe x y = false) : y ≤ x := by
  rcases le_total x y with hxy | hyx
  · rw [(strLe_iff x y).mpr hxy] at h
    cases h
  · exact hyx

/-- Insert a string into a list keeping ascending lexicographic order. -/
def insertSorted (x : String) : List String → List String
  | [] => [x]
  | y :: ys => if strLe x y then x :: y :: ys else y :: insertSorted x ys

/-- `sort.Strings`: sort backend names in ascending lexicographic order.
Insertion sort is extensionally the unique sort for the linear order on
strings, hence a faithful model of Go's sort. -/
def sortNames (l : List String) : List String :=
  l.foldr insertSorted []

theorem mem_insertSorted (a x : String) (l : List String) :
    a ∈ insertSorted x l ↔ a = x ∨ a ∈ l := by
  induction l with
  | nil => simp [insertSorted]
  | cons y ys ih =>
    cases h : strLe x y with
    | true => simp [insertSorted, h]
    | false =>
      simp only [insertSorted, h, Bool.false_eq_true, if_false, List.mem_cons, ih]
      tauto

theorem mem_sortNames (a : String) (l : List String) :
    a ∈ sortNames l ↔ a ∈ l := by
  induction l with
  | nil => simp [sortNames]
  | cons y ys ih =>
    simp only [sortNames, List.foldr_cons] at *
    rw [mem_insertSorted, ih, List.mem_cons]

theorem pairwise_insertSorted (x : String) (l : List String)
    (h : l.Pairwise (· ≤ ·)) : (insertSorted x l).Pairwise (· ≤ ·) := by
  induction l with
  | nil => simp [insertSorted]
  | cons y ys ih =>
    rcases List.pairwise_cons.mp h with ⟨hy, hys⟩
    cases hxy : strLe x y with
    | true =>
      rw [insertSorted, if_pos hxy]
      have hxy2 : x ≤ y := (strLe_iff x y).mp hxy
      refine List.pairwise_cons.mpr ⟨?_, h⟩
      intro b hb
      rcases List.mem_cons.mp hb with rfl | hb
      · exact hxy2
      · exact le_trans hxy2 (hy b hb)
    | false =>
      rw [insertSorted, if_neg (by simp [hxy])]
      refine List.pairwise_cons.mpr ⟨?_, ih hys⟩
      intro b hb
      rcases (mem_insertSorted b x ys).mp hb with rfl | hb
      · exact strLe_false _ _ hxy
      · exact hy b hb

theorem sortNames_pairwise (l : List String) :
    (sortNames l).Pairwise (· ≤ ·) := by
  induction l with
  | nil => simp [sortNames]
  | cons y ys ih => exact pairwise_insertSorted y (sortNames ys) ih

theorem find?_min_of_pairwise (l : List String) (p : String → Bool)
    (b x : String) (hl : l.Pairwise (· ≤ ·)) (hf : l.find? p = some b)
    (hx : x ∈ l) (hp : p x = true) : b ≤ x := by
  induction l with
  | nil => cases hf
  | cons y ys ih =>
    rcases List.pairwise_cons.mp hl with ⟨hy, hys⟩
    by_cases hpy : p y = true
    · rw [List.find?_cons_of_pos _ hpy] at hf
      injection hf with hf
      subst hf
      rcases List.mem_cons.mp hx with rfl | hx
      · exact le_refl _
      · exact hy x hx
    · rw [List.find?_cons_of_neg _ (by simpa using hpy)] at hf
      rcases List.mem_cons.mp hx with rfl | hx
      · exact absurd hp hpy
      · exact ih hys hf hx

/-- The outcome of fetching one backend's operation catalog (through the
cache in the current snapshot, directly in the earlier one): `ok` with the
tool list on success, `error` with a message on failure. Abstracts
`getToolsWithCache` / `client.ListTools` seen from the aggregation and
routing loops. -/
abbrev Fetch := String → Except String (List Tool)

/-- The tools a backend contributes: its catalog on success, nothing on a
failed fetch (the loops log and skip failed backends). -/
def fetchedTools (fetch : Fetch) (b : String) : List Tool :=
  match fetch b with
  | .ok ts => ts
  | .error _ => []

/-- One step of the aggregation loop body: insert a tool into the
accumulated `toolMap` unless a tool of the same name is already present
(in which case the incoming definition is discarded; the conflict is
logged, which does not affect the result). -/
def addTool (acc : List Tool) (t : Tool) : List Tool :=
  if acc.any (fun t0 => t0.name == t.name) then acc else acc ++ [t]

/-- `listAllTools`: walk backend names in sorted order, fetch each catalog,
skip backends whose fetch failed, and key the union by tool name with the
first occurrence winning. The conflict log built alongside is
diagnostic-only (it never changes `toolMap`) and is not part of the
returned value, so it is omitted here. -/
def listAllTools (names : List String) (fetch : Fetch) : List Tool :=
  (sortNames names).foldl
    (fun acc b =>
      match fetch b with
      | .error _ => acc
      | .ok ts => ts.foldl addTool acc)
    []

/-- All tools of all backends, flattened in visitation order. -/
def allToolsFlat (fetch : Fetch) : List String → List Tool
  | [] => []
  | b :: bs => fetchedTools fetch b ++ allToolsFlat fetch bs

/-- Whether backend `b` offers a tool named `n` (failed fetches offer
nothing). -/
def offersB (fetch : Fetch) (n : String) (b : String) : Bool :=
  (fetchedTools fetch b).any (fun t => t.name == n)

/-- Modelled from the spec sentence for claim comparison: the first
backend, in sorted name order, whose catalog offers the given operation
name. -/
def specFirstOwner (names : List String) (fetch : Fetch) (n : String) :
    Option String :=
  (sortNames names).find? (offersB fetch n)

/-- Modelled from the spec sentence for claim comparison: the operation
definition kept for a name is the one offered by the lexicographically
first backend offering it. -/
def specKept (names : List String) (fetch : Fetch) (n : String) :
    Option Tool :=
  (specFirstOwner names fetch n).bind
    (fun b => (fetchedTools fetch b).find? (fun t => t.name == n))

theorem find?_cons_pos {α : Type} (p : α → Bool) (a : α) (l : List α)
    (h : p a = true) : (a :: l).find? p = some a := by
  simp [List.find?_cons, h]

theorem find?_cons_neg {α : Type} (p : α → Bool) (a : α) (l : List α)
    (h : p a = false) : (a :: l).find? p = l.find? p := by
  simp [List.find?_cons, h]

theorem foldl_addTool_mem (l : List Tool) :
    ∀ (acc : List Tool) (t : Tool),
      t ∈ l.foldl addTool acc ↔
        t ∈ acc ∨
          (acc.any (fun u => u.name == t.name) = false ∧
            l.find? (fun u => u.name == t.name) = some t) := by
  induction l with
  | nil =>
    intro acc t
    simp
  | cons u l ih =>
    intro acc t
    rw [List.foldl_cons, ih]
    cases hname : (u.name == t.name) with
    | true =>
      have hnm : u.name = t.name := eq_of_beq hname
      rw [find?_cons_pos (fun u0 => u0.name == t.name) u l hname]
      cases hin : (acc.any fun u0 => u0.name == u.name) with
      | true =>
        rw [addTool, if_pos hin]
        have hacc : (acc.any fun u0 => u0.name == t.name) = true := by
          rw [← hnm]; exact hin
        simp [hacc]
      | false =>
        rw [addTool, if_neg (by simp [hin])]
        have hacc : (acc.any fun u0 => u0.name == t.name) = false := by
          rw [← hnm]; exact hin
        have happ : ((acc ++ [u]).any fun u0 => u0.name == t.name) = true := by
          rw [List.any_append]
          simp [hname]
        rw [hacc, happ]
        constructor
        · rintro (h | ⟨hf, _⟩)
          · rcases List.mem_append.mp h with h | h
            · exact Or.inl h
            · rcases List.mem_singleton.mp h with rfl
              exact Or.inr ⟨rfl, rfl⟩
          · cases hf
        · rintro (h | ⟨_, ht⟩)
          · exact Or.inl (List.mem_append.mpr (Or.inl h))
          · injection ht with ht
            subst ht
            exact Or.inl (List.mem_append.mpr (Or.inr (List.mem_singleton.mpr rfl)))
    | false =>
      rw [find?_cons_neg (fun u0 => u0.name == t.name) u l hname]
      cases hin : (acc.any fun u0 => u0.name == u.name) with
      | true =>
        rw [addTool, if_pos hin]
      | false =>
        rw [addTool, if_neg (by simp [hin])]
        have happ : ((acc ++ [u]).any fun u0 => u0.name == t.name)
            = (acc.any fun u0 => u0.name == t.name) := by
          rw [List.any_append]
          simp [hname]
        have hmem : (t ∈ acc ++ [u]) ↔ t ∈ acc := by
          rw [List.mem_append]
          simp only [List.mem_singleton]
          constructor
          · rintro (h | rfl)
            · exact h
            · simp at hname
          · exact Or.inl
        rw [happ, hmem]

theorem any_false_find?_none {α : Type} (p : α → Bool) (l : List α)
    (h : l.any p = false) : l.find? p = none := by
  rw [List.find?_eq_none]
  intro x hx
  have := List.any_eq_false.mp h x hx
  simp [this]

theorem any_true_find?_some {α : Type} (p : α → Bool) (l : List α)
    (h : l.any p = true) : ∃ x, l.find? p = some x := by
  rcases List.any_eq_true.mp h with ⟨x, hx, hpx⟩
  have : (l.find? p).isSome := List.find?_isSome.mpr ⟨x, hx, hpx⟩
  exact Option.isSome_iff_exists.mp this

theorem listAllTools_eq_fold (names : List String) (fetch : Fetch) :
    listAllTools names fetch
      = (allToolsFlat fetch (sortNames names)).foldl addTool [] := by
  rw [listAllTools]
  generalize sortNames names = ns
  suffices h : ∀ (ns : List String) (acc : List Tool),
      ns.foldl
        (fun acc b =>
          match fetch b with
          | .error _ => acc
          | .ok ts => ts.foldl addTool acc)
        acc
        = (allToolsFlat fetch ns).foldl addTool acc by
    exact h ns []
  intro ns
  induction ns with
  | nil => intro acc; simp [allToolsFlat]
  | cons b bs ih =>
    intro acc
    rw [List.foldl_cons, allToolsFlat, List.foldl_append, ih]
    rcases hb : fetch b with e | ts <;> simp [fetchedTools, hb]

theorem find?_allToolsFlat (fetch : Fetch) (p : Tool → Bool) (ns : List String) :
    (allToolsFlat fetch ns).find? p
      = match ns.find? (fun b => (fetchedTools fetch b).any p) with
        | some b => (fetchedTools fetch b).find? p
        | none => none := by
  induction ns with
  | nil => simp [allToolsFlat]
  | cons b bs ih =>
    rw [allToolsFlat, List.find?_append, ih]
    cases hb : (fetchedTools fetch b).any p with
    | true =>
      rcases any_true_find?_some p _ hb with ⟨x, hx⟩
      rw [find?_cons_pos (fun b0 => (fetchedTools fetch b0).any p) b bs hb, hx]
      simp [hx]
    | false =>
      rw [find?_cons_neg (fun b0 => (fetchedTools fetch b0).any p) b bs hb,
        any_false_find?_none p _ hb]
      rfl

theorem specKept_eq_find? (names : List String) (fetch : Fetch) (n : String) :
    specKept names fetch n
      = (allToolsFlat fetch (sortNames names)).find? (fun t => t.name == n) := by
  have hofs : offersB fetch n
      = (fun b => (fetchedTools fetch b).any fun t => t.name == n) := rfl
  rw [specKept, specFirstOwner,
    find?_allToolsFlat fetch (fun t => t.name == n) (sortNames names), hofs]
  rcases (sortNames names).find?
      (fun b => (fetchedTools fetch b).any fun t => t.name == n) with _ | b
  · rfl
  · rfl

theorem mem_allToolsFlat (fetch : Fetch) (t : Tool) (ns : List String) :
    t ∈ allToolsFlat fetch ns ↔ ∃ b, b ∈ ns ∧ t ∈ fetchedTools fetch b := by
  induction ns with
  | nil => simp [allToolsFlat]
  | cons b bs ih =>
    rw [allToolsFlat, List.mem_append, ih]
    constructor
    · rintro (h | ⟨b2, hb2, ht⟩)
      · exact ⟨b, List.mem_cons_self b bs, h⟩
      · exact ⟨b2, List.mem_cons_of_mem b hb2, ht⟩
    · rintro ⟨b2, hb2, ht⟩
      rcases List.mem_cons.mp hb2 with rfl | hb2
      · exact Or.inl ht
      · exact Or.inr ⟨b2, hb2, ht⟩

theorem find?_of_nodup_names (l : List Tool) (t : Tool)
    (hnd : (l.map Tool.name).Nodup) (ht : t ∈ l) :
    l.find? (fun u => u.name == t.name) = some t := by
  induction l with
  | nil => cases ht
  | cons u l ih =>
    rw [List.map_cons, List.nodup_cons] at hnd
    rcases List.mem_cons.mp ht with rfl | ht
    · exact find?_cons_pos (fun u0 => u0.name == t.name) t l (by simp)
    · have hne : (u.name == t.name) = false := by
        by_contra h
        rw [Bool.not_eq_false] at h
        have : u.name = t.name := eq_of_beq h
        exact hnd.1 (this ▸ List.mem_map_of_mem Tool.name ht)
      rw [find?_cons_neg (fun u0 => u0.name == t.name) u l hne]
      exact ih hnd.2 ht

/-- C1: for every registry of backends with known catalogs, flat-mode
tools/list returns exactly the union keyed by operation name in which, for
each name, the definition kept is the one from the lexicographically first
backend name (in sorted backend-name order) offering that name, later
definitions being discarded; for disjoint catalogs the result is the plain
union of all operations. -/
theorem claim1_listAllTools_union (names : List String) (fetch : Fetch)
    (hknown : ∀ b ∈ names, ∃ ts, fetch b = Except.ok ts) :
    (∀ t : Tool,
        t ∈ listAllTools names fetch ↔ specKept names fetch t.name = some t)
  ∧ (∀ (n b : String), specFirstOwner names fetch n = some b →
        b ∈ names ∧ offersB fetch n b = true ∧
          ∀ b2 ∈ names, offersB fetch n b2 = true → b ≤ b2)
  ∧ (((allToolsFlat fetch (sortNames names)).map Tool.name).Nodup →
        ∀ t : Tool,
          t ∈ listAllTools names fetch ↔
            ∃ b, b ∈ names ∧ t ∈ fetchedTools fetch b) := by
  have hmem : ∀ t : Tool,
      t ∈ listAllTools names fetch ↔ specKept names fetch t.name = some t := by
    intro t
    rw [listAllTools_eq_fold, foldl_addTool_mem, specKept_eq_find?]
    simp
  refine ⟨hmem, ?_, ?_⟩
  · intro n b hb
    rw [specFirstOwner] at hb
    refine ⟨(mem_sortNames b names).mp (List.mem_of_find?_eq_some hb),
      List.find?_some hb, ?_⟩
    intro b2 hb2 hoff
    exact find?_min_of_pairwise (sortNames names) (offersB fetch n) b b2
      (sortNames_pairwise names) hb ((mem_sortNames b2 names).mpr hb2) hoff
  · intro hnd t
    rw [hmem t, specKept_eq_find?]
    constructor
    · intro h
      exact (mem_allToolsFlat fetch t (sortNames names)).mp
        (List.mem_of_find?_eq_some h) |>.imp
        (fun b hb => ⟨(mem_sortNames b names).mp hb.1, hb.2⟩)
    · rintro ⟨b, hb, ht⟩
      exact find?_of_nodup_names _ t hnd
        ((mem_allToolsFlat fetch t (sortNames names)).mpr
          ⟨b, (mem_sortNames b names).mpr hb, ht⟩)

/-- The spec scenario registry: backend `A` offers tool `x`, backend `B`
offers tools `x` (with a different definition) and `y`; any other backend
name fails to fetch. -/
def fetchAB : Fetch := fun c =>
  if c = "A" then Except.ok [Tool.mk "x" "defA"]
  else if c = "B" then Except.ok [Tool.mk "x" "defB", Tool.mk "y" "defY"]
  else Except.error "no such backend"

/-- Witness for C1 at the concrete spec scenario: with backends `A` and
`B` both offering `x`, the aggregated view keeps the definition of `x`
coming from `A`. -/
theorem claim1_witness :
    (∀ b ∈ ["B", "A"], ∃ ts, fetchAB b = Except.ok ts)
  ∧ Tool.mk "x" "defA" ∈ listAllTools ["B", "A"] fetchAB := by
  have hk : ∀ b ∈ ["B", "A"], ∃ ts, fetchAB b = Except.ok ts := by
    intro b hb
    rcases List.mem_cons.mp hb with rfl | hb
    · exact ⟨[Tool.mk "x" "defB", Tool.mk "y" "defY"], rfl⟩
    · rcases List.mem_singleton.mp hb with rfl
      exact ⟨[Tool.mk "x" "defA"], rfl⟩
  refine ⟨hk, ?_⟩
  exact ((claim1_listAllTools_union ["B", "A"] fetchAB hk).1 _).mpr (by decide)

/-- The observable outcome of flat-mode `callToolAuto`: either the call is
forwarded to a backend (`invoked`, recording backend, tool name and
arguments passed to `CallTool`), or no string tool name was supplied
("tool name is required"), or no backend offered the name
("tool not found"). -/
inductive CallOutcome where
  | invoked (backend : String) (tool : String) (args : List (String × String))
  | nameRequired
  | notFound
deriving DecidableEq, Repr

/-- The inner loop of `callToolAuto` over one backend's tools: append the
backend to `found` at each tool whose name matches, and signal a return
(the call is forwarded) exactly when `found` thereby reaches length one.
Returns the new `found` list and whether the loop returned. -/
def scanTools (b toolName : String) (found : List String) :
    List Tool → List String × Bool
  | [] => (found, false)
  | t :: ts =>
    if t.name == toolName then
      let found2 := found ++ [b]
      if found2.length == 1 then (found2, true)
      else scanTools b toolName found2 ts
    else scanTools b toolName found ts

/-- The outer loop of `callToolAuto` over sorted backend names, carrying
`foundServers`. The second component of the result records whether the
post-loop conflict warning fires (it requires more than one found server
at loop exit). -/
def callLoop (fetch : Fetch) (toolName : String)
    (args : List (String × String)) (found : List String) :
    List String → CallOutcome × Bool
  | [] => (.notFound, decide (found.length > 1))
  | b :: rest =>
    match fetch b with
    | .error _ => callLoop fetch toolName args found rest
    | .ok ts =>
      match scanTools b toolName found ts with
      | (_, true) => (.invoked b toolName args, false)
      | (found2, false) => callLoop fetch toolName args found2 rest

/-- `callToolAuto`: read the tool name from the params (client error when
absent or not a string), then walk backend names in sorted order and
forward the call to the first backend whose catalog contains the name;
exhausting all backends yields "tool not found". -/
def callToolAuto (names : List String) (fetch : Fetch) (params : Params) :
    CallOutcome × Bool :=
  match getString params "name" with
  | none => (.nameRequired, false)
  | some toolName => callLoop fetch toolName (getArgs params) [] (sortNames names)

theorem scanTools_nil_found (b toolName : String) (ts : List Tool) :
    scanTools b toolName [] ts
      = if ts.any (fun t => t.name == toolName) then ([b], true)
        else ([], false) := by
  induction ts with
  | nil => simp [scanTools]
  | cons t ts ih =>
    cases h : (t.name == toolName) with
    | true =>
      rw [scanTools]
      simp [h]
    | false =>
      rw [scanTools]
      simp only [h, Bool.false_eq_true, if_false, List.any_cons, Bool.false_or]
      exact ih

theorem callLoop_empty_found (fetch : Fetch) (toolName : String)
    (args : List (String × String)) (l : List String) :
    callLoop fetch toolName args [] l
      = match l.find? (offersB fetch toolName) with
        | some b => (.invoked b toolName args, false)
        | none => (.notFound, false) := by
  induction l with
  | nil => simp [callLoop]
  | cons b rest ih =>
    cases hb : fetch b with
    | error e =>
      have hoff : offersB fetch toolName b = false := by
        rw [offersB, fetchedTools, hb]
        rfl
      simp only [callLoop, hb,
        find?_cons_neg (offersB fetch toolName) b rest hoff]
      exact ih
    | ok ts =>
      cases hany : ts.any (fun t => t.name == toolName) with
      | true =>
        have hoff : offersB fetch toolName b = true := by
          rw [offersB, fetchedTools, hb]
          exact hany
        simp only [callLoop, hb, scanTools_nil_found, if_pos hany,
          find?_cons_pos (offersB fetch toolName) b rest hoff]
      | false =>
        have hoff : offersB fetch toolName b = false := by
          rw [offersB, fetchedTools, hb]
          exact hany
        simp only [callLoop, hb, scanTools_nil_found, hany,
          Bool.false_eq_true, if_false,
          find?_cons_neg (offersB fetch toolName) b rest hoff]
        exact ih

/-- C2: for every flat-mode tools/call whose params contain a string
operation name, the engine walks backend names in sorted order and
forwards the call to the first backend whose (successfully fetched)
catalog contains the name, stopping there; if no backend offers the name,
or every catalog fetch failed, the outcome is "tool not found" and no
backend is invoked (the `invoked` outcome is the only representation of a
forwarded call, and it is not produced). -/
theorem claim2_callToolAuto_routing (names : List String) (fetch : Fetch)
    (params : Params) (n : String) (hname : getString params "name" = some n) :
    (∀ b : String, (sortNames names).find? (offersB fetch n) = some b →
        callToolAuto names fetch params
          = (.invoked b n (getArgs params), false))
  ∧ ((sortNames names).find? (offersB fetch n) = none →
        callToolAuto names fetch params = (.notFound, false))
  ∧ ((∀ b ∈ names, ∃ e, fetch b = Except.error e) →
        callToolAuto names fetch params = (.notFound, false)) := by
  have hbase : callToolAuto names fetch params
      = match (sortNames names).find? (offersB fetch n) with
        | some b => (.invoked b n (getArgs params), false)
        | none => (.notFound, false) := by
    simp only [callToolAuto, hname, callLoop_empty_found]
  refine ⟨?_, ?_, ?_⟩
  · intro b hb
    rw [hbase, hb]
  · intro hnone
    rw [hbase, hnone]
  · intro hall
    have hnone : (sortNames names).find? (offersB fetch n) = none := by
      rw [List.find?_eq_none]
      intro b hb
      rcases hall b ((mem_sortNames b names).mp hb) with ⟨e, he⟩
      rw [offersB, fetchedTools, he]
      simp
    rw [hbase, hnone]

/-- Witness for C2 at the spec scenario: calling `x` routes to `A`,
calling `y` routes to `B`, calling `z` is "tool not found". -/
theorem claim2_witness :
    getString [("name", JValue.str "y")] "name" = some "y"
  ∧ callToolAuto ["B", "A"] fetchAB [("name", JValue.str "y")]
      = (.invoked "B" "y" [], false) := by
  have h1 : getString [("name", JValue.str "y")] "name" = some "y" := by decide
  refine ⟨h1, ?_⟩
  exact (claim2_callToolAuto_routing ["B", "A"] fetchAB
    [("name", JValue.str "y")] "y" h1).1 "B" (by decide)

/-- Concrete flat-mode params requesting tool `x`. -/
def paramsX : Params := [("name", JValue.str "x")]

/-- C6, settled as a code bug: at the registry where both `A` and `B`
offer `x`, the call is forwarded to `A` and the conflict-warning flag is
`false` (no conflict is recorded); in general the post-loop conflict
warning of `callToolAuto` is unreachable, because the loop returns at the
first match and `foundServers` therefore never holds more than one
element at loop exit. -/
theorem claim6_conflict_log_unreachable :
    (callToolAuto ["B", "A"] fetchAB paramsX
      = (.invoked "A" "x" [], false))
  ∧ ∀ (names : List String) (fetch : Fetch) (params : Params),
      (callToolAuto names fetch params).2 = false := by
  constructor
  · decide
  · intro names fetch params
    cases h : getString params "name" with
    | none => simp [callToolAuto, h]
    | some n =>
      simp only [callToolAuto, h, callLoop_empty_found]
      cases (sortNames names).find? (offersB fetch n) with
      | none => rfl
      | some b => rfl

/-- Go map assignment `m[k] = v` on the association-list representation:
replace the binding if the key is present, append it otherwise. -/
def aset {β : Type} (m : List (String × β)) (k : String) (v : β) :
    List (String × β) :=
  match m with
  | [] => [(k, v)]
  | p :: rest => if p.1 == k then (k, v) :: rest else p :: aset rest k v

theorem alookup_aset_self {β : Type} (m : List (String × β)) (k : String)
    (v : β) : alookup (aset m k v) k = some v := by
  induction m with
  | nil => simp [aset, alookup]
  | cons p rest ih =>
    cases h : (p.1 == k) with
    | true => simp [aset, h, alookup]
    | false =>
      simp only [aset, h, Bool.false_eq_true, if_false]
      rw [alookup, find?_cons_neg (fun q => q.1 == k) p (aset rest k v) h]
      exact ih

theorem alookup_aset_other {β : Type} (m : List (String × β)) (k b : String)
    (v : β) (hne : (k == b) = false) :
    alookup (aset m k v) b = alookup m b := by
  induction m with
  | nil => simp [aset, alookup, hne]
  | cons p rest ih =>
    cases h : (p.1 == k) with
    | true =>
      have hpb : (p.1 == b) = false := by
        have : p.1 = k := eq_of_beq h
        rw [this]
        exact hne
      simp only [aset, h, if_true]
      rw [alookup, find?_cons_neg (fun q => q.1 == b) (k, v) rest hne,
        alookup, find?_cons_neg (fun q => q.1 == b) p rest hpb]
    | false =>
      simp only [aset, h, Bool.false_eq_true, if_false]
      cases hpb : (p.1 == b) with
      | true =>
        rw [alookup, find?_cons_pos (fun q => q.1 == b) p (aset rest k v) hpb,
          alookup, find?_cons_pos (fun q => q.1 == b) p rest hpb]
      | false =>
        rw [alookup, find?_cons_neg (fun q => q.1 == b) p (aset rest k v) hpb,
          alookup, find?_cons_neg (fun q => q.1 == b) p rest hpb]
        exact ih

/-- The flat-mode tools cache: `toolsCache` maps a backend name to the
last successfully fetched tool list, `cacheExpiry` to its expiry
timestamp. Time is an explicit natural number. -/
structure CacheState where
  toolsCache : List (String × List Tool)
  cacheExpiry : List (String × Nat)
deriving DecidableEq, Repr

/-- The fetch-and-store tail of `getToolsWithCache`: call the backend's
`ListTools` (its outcome is the `res` argument), propagate an error
without touching the state, or store the result with expiry `now + 60`.
The third component counts underlying `ListTools` calls. -/
def cacheFetch (st : CacheState) (now : Nat) (s : String)
    (res : Except String (List Tool)) :
    Except String (List Tool) × CacheState × Nat :=
  match res with
  | .error e => (.error e, st, 1)
  | .ok tools =>
    (.ok tools,
      ⟨aset st.toolsCache s tools, aset st.cacheExpiry s (now + 60)⟩, 1)

/-- `getToolsWithCache`: if a cached tool list exists for the backend and
a stored expiry lies strictly in the future, return the cached list
without calling the backend; otherwise fetch and, on success, store the
result with a 60-unit TTL. -/
def getToolsWithCache (st : CacheState) (now : Nat) (s : String)
    (res : Except String (List Tool)) :
    Except String (List Tool) × CacheState × Nat :=
  match alookup st.toolsCache s with
  | some tools =>
    match alookup st.cacheExpiry s with
    | some expiry =>
      if now < expiry then (.ok tools, st, 0)
      else cacheFetch st now s res
    | none => cacheFetch st now s res
  | none => cacheFetch st now s res

/-- Whether the cache lookup of `getToolsWithCache` hits: an entry exists
and its stored expiry is strictly in the future. -/
def cacheHit (st : CacheState) (s : String) (now : Nat) : Bool :=
  match alookup st.toolsCache s with
  | some _ =>
    match alookup st.cacheExpiry s with
    | some expiry => decide (now < expiry)
    | none => false
  | none => false

theorem getToolsWithCache_hit (st : CacheState) (now : Nat) (s : String)
    (cached : List Tool) (e : Nat) (hc : alookup st.toolsCache s = some cached)
    (he : alookup st.cacheExpiry s = some e) (hlt : now < e)
    (res : Except String (List Tool)) :
    getToolsWithCache st now s res = (.ok cached, st, 0) := by
  simp only [getToolsWithCache, hc, he, if_pos hlt]

theorem getToolsWithCache_miss (st : CacheState) (now : Nat) (s : String)
    (res : Except String (List Tool)) (h : cacheHit st s now = false) :
    getToolsWithCache st now s res = cacheFetch st now s res := by
  cases hc : alookup st.toolsCache s with
  | none => simp only [getToolsWithCache, hc]
  | some cached =>
    cases he : alookup st.cacheExpiry s with
    | none => simp only [getToolsWithCache, hc, he]
    | some e =>
      have hlt : ¬ now < e := by
        simp only [cacheHit, hc, he, decide_eq_false_iff_not] at h
        exact h
      simp only [getToolsWithCache, hc, he, if_neg hlt]

theorem cacheHit_eq_true (st : CacheState) (s : String) (now : Nat)
    (h : cacheHit st s now = true) :
    ∃ cached e, alookup st.toolsCache s = some cached ∧
      alookup st.cacheExpiry s = some e ∧ now < e := by
  cases hc : alookup st.toolsCache s with
  | none =>
    simp only [cacheHit, hc] at h
    cases h
  | some cached =>
    cases he : alookup st.cacheExpiry s with
    | none =>
      simp only [cacheHit, hc, he] at h
      cases h
    | some e =>
      simp only [cacheHit, hc, he, decide_eq_true_eq] at h
      exact ⟨cached, e, rfl, rfl, h⟩

/-- C3: cache get is idempotent within the TTL window. A hit (entry
present, expiry in the future) returns the cached tools, leaves the state
unchanged and performs zero underlying `ListTools` calls; a miss performs
exactly one call and, on success, stores the result with expiry
`now + 60`; consequently two sequential gets for the same backend within
the TTL perform one call then zero calls, the second returning the same
tools from the unchanged cache. -/
theorem claim3_cache_ttl_idempotent (st : CacheState) (s : String)
    (t0 t1 : Nat) (ts : List Tool) (res2 : Except String (List Tool)) :
    (∀ (cached : List Tool) (e : Nat),
        alookup st.toolsCache s = some cached →
        alookup st.cacheExpiry s = some e → t0 < e →
        ∀ res : Except String (List Tool),
          getToolsWithCache st t0 s res = (.ok cached, st, 0))
  ∧ (cacheHit st s t0 = false →
        getToolsWithCache st t0 s (.ok ts)
          = (.ok ts,
              ⟨aset st.toolsCache s ts, aset st.cacheExpiry s (t0 + 60)⟩, 1))
  ∧ (cacheHit st s t0 = false → t1 < t0 + 60 →
        getToolsWithCache st t0 s (.ok ts)
            = (.ok ts,
                ⟨aset st.toolsCache s ts, aset st.cacheExpiry s (t0 + 60)⟩, 1)
        ∧ getToolsWithCache
              ⟨aset st.toolsCache s ts, aset st.cacheExpiry s (t0 + 60)⟩
              t1 s res2
            = (.ok ts,
                ⟨aset st.toolsCache s ts, aset st.cacheExpiry s (t0 + 60)⟩,
                0)) := by
  have hmiss : cacheHit st s t0 = false →
      getToolsWithCache st t0 s (.ok ts)
        = (.ok ts,
            ⟨aset st.toolsCache s ts, aset st.cacheExpiry s (t0 + 60)⟩, 1) := by
    intro h
    rw [getToolsWithCache_miss st t0 s _ h]
    rfl
  refine ⟨?_, hmiss, ?_⟩
  · intro cached e hc he hlt res
    exact getToolsWithCache_hit st t0 s cached e hc he hlt res
  · intro h hlt
    refine ⟨hmiss h, ?_⟩
    exact getToolsWithCache_hit _ t1 s ts (t0 + 60)
      (alookup_aset_self st.toolsCache s ts)
      (alookup_aset_self st.cacheExpiry s (t0 + 60)) hlt res2

/-- Witness for C3: starting from the empty cache, a get for backend `a`
at time 0 performs one underlying call and stores the tools; a second get
at time 59 (before the expiry 60) performs zero calls and returns the
same tools, even though the backend would now fail. -/
theorem claim3_witness :
    getToolsWithCache ⟨[], []⟩ 0 "a" (.ok [Tool.mk "x" "d"])
        = (.ok [Tool.mk "x" "d"],
            ⟨[("a", [Tool.mk "x" "d"])], [("a", 60)]⟩, 1)
  ∧ getToolsWithCache ⟨[("a", [Tool.mk "x" "d"])], [("a", 60)]⟩ 59 "a"
        (.error "backend down")
        = (.ok [Tool.mk "x" "d"],
            ⟨[("a", [Tool.mk "x" "d"])], [("a", 60)]⟩, 0) := by
  have h := (claim3_cache_ttl_idempotent ⟨[], []⟩ "a" 0 59 [Tool.mk "x" "d"]
    (.error "backend down")).2.2 (by decide) (by decide)
  exact ⟨h.1, h.2⟩

/-- C4: cache refresh is atomic on failure. When the underlying
`ListTools` outcome is an error, the state returned by
`getToolsWithCache` is exactly the input state (so every backend's cached
tools and expiry, including the requested one, are unchanged), and on a
miss the error is propagated after exactly one underlying call. -/
theorem claim4_cache_failure_atomic (st : CacheState) (now : Nat)
    (s msg : String) :
    ((getToolsWithCache st now s (.error msg)).2.1 = st)
  ∧ (cacheHit st s now = false →
        (getToolsWithCache st now s (.error msg)).1 = .error msg
        ∧ (getToolsWithCache st now s (.error msg)).2.2 = 1)
  ∧ (∀ b : String,
        alookup (getToolsWithCache st now s (.error msg)).2.1.toolsCache b
          = alookup st.toolsCache b
        ∧ alookup (getToolsWithCache st now s (.error msg)).2.1.cacheExpiry b
          = alookup st.cacheExpiry b) := by
  have hstate : (getToolsWithCache st now s (.error msg)).2.1 = st := by
    cases h : cacheHit st s now with
    | true =>
      rcases cacheHit_eq_true st s now h with ⟨cached, e, hc, he, hlt⟩
      rw [getToolsWithCache_hit st now s cached e hc he hlt]
    | false =>
      rw [getToolsWithCache_miss st now s _ h]
      rfl
  refine ⟨hstate, ?_, ?_⟩
  · intro h
    rw [getToolsWithCache_miss st now s _ h]
    exact ⟨rfl, rfl⟩
  · intro b
    rw [hstate]
    exact ⟨rfl, rfl⟩

/-- Witness for C4: with a stale entry for `a` (expiry 60, now 100), a
failed refresh propagates the error and leaves the entry in place. -/
theorem claim4_witness :
    (getToolsWithCache ⟨[("a", [Tool.mk "x" "d"])], [("a", 60)]⟩ 100 "a"
        (.error "boom")).2.1
      = (⟨[("a", [Tool.mk "x" "d"])], [("a", 60)]⟩ : CacheState)
  ∧ (getToolsWithCache ⟨[("a", [Tool.mk "x" "d"])], [("a", 60)]⟩ 100 "a"
        (.error "boom")).1 = .error "boom" := by
  refine ⟨(claim4_cache_failure_atomic ⟨[("a", [Tool.mk "x" "d"])], [("a", 60)]⟩
    100 "a" "boom").1, ?_⟩
  exact ((claim4_cache_failure_atomic ⟨[("a", [Tool.mk "x" "d"])], [("a", 60)]⟩
    100 "a" "boom").2.1 (by decide)).1

/-- Per-backend tool allow/deny lists (`_extensions.tools` in the
configuration). -/
structure ToolsExtensions where
  allow : List String
  deny : List String
deriving DecidableEq, Repr

/-- Per-backend extension configuration. -/
structure Extensions where
  disabled : Bool
  sse : Bool
  tools : ToolsExtensions
deriving DecidableEq, Repr

/-- `isToolAllowed`: with a non-empty allow list, a tool is allowed
exactly when listed there; otherwise a non-empty deny list excludes the
listed tools; with neither list, everything is allowed. `none` models a
client whose configuration carries no extensions. -/
def isToolAllowed (ext : Option Extensions) (toolName : String) : Bool :=
  match ext with
  | none => true
  | some e =>
    if e.tools.allow.length > 0 then
      e.tools.allow.contains toolName
    else
      if e.tools.deny.length > 0 then
        !(e.tools.deny.contains toolName)
      else
        true

/-- C10: the allow list takes precedence over the deny list. With a
non-empty allow list a tool is permitted if and only if it is listed
there — the deny list is never consulted, so a tool present in both lists
is allowed; the deny list excludes tools only when the allow list is
empty. -/
theorem claim10_allow_precedence (e : Extensions) (n : String) :
    (e.tools.allow ≠ [] →
        (isToolAllowed (some e) n = true ↔ n ∈ e.tools.allow))
  ∧ (n ∈ e.tools.allow → n ∈ e.tools.deny → isToolAllowed (some e) n = true)
  ∧ (e.tools.allow = [] →
        (isToolAllowed (some e) n = false ↔ n ∈ e.tools.deny)) := by
  refine ⟨?_, ?_, ?_⟩
  · intro hne
    have hlen : e.tools.allow.length > 0 := List.length_pos.mpr hne
    rw [isToolAllowed, if_pos hlen]
    exact List.elem_iff
  · intro ha _
    have hne : e.tools.allow ≠ [] := List.ne_nil_of_mem ha
    have hlen : e.tools.allow.length > 0 := List.length_pos.mpr hne
    rw [isToolAllowed, if_pos hlen]
    exact List.elem_iff.mpr ha
  · intro hnil
    rw [isToolAllowed, if_neg (by simp [hnil])]
    cases hd : e.tools.deny with
    | nil => simp
    | cons d ds =>
      rw [if_pos (by simp [hd])]
      rw [← hd]
      constructor
      · intro h
        have hc2 : e.tools.deny.contains n = true := by
          cases hc : e.tools.deny.contains n with
          | true => rfl
          | false => rw [hc] at h; cases h
        exact List.elem_iff.mp hc2
      · intro h
        have hc2 : e.tools.deny.contains n = true := List.elem_iff.mpr h
        rw [hc2]
        rfl

/-- Witness for C10: a tool listed in both the allow and the deny list is
allowed. -/
theorem claim10_witness :
    isToolAllowed (some ⟨false, false, ⟨["t"], ["t"]⟩⟩) "t" = true :=
  (claim10_allow_precedence ⟨false, false, ⟨["t"], ["t"]⟩⟩ "t").2.1
    (by decide) (by decide)

/-- The observable outcome of the split-mode tools/call handler: either
the call is forwarded to the backend client (`calls`, with the tool name
and arguments passed to `CallTool`), or the handler panics on the
unchecked `params["name"].(string)` type assertion. -/
inductive SplitCallOutcome where
  | calls (tool : String) (args : List (String × String))
  | panics
deriving DecidableEq, Repr

/-- `SplitModeHandler.handleToolsCall`: the `arguments` field falls back
to an empty map when absent or ill-typed, but the `name` field is read
with an unchecked type assertion at the `CallTool` call site, which
panics when the key is absent or not a string. -/
def splitHandleToolsCall (params : Params) : SplitCallOutcome :=
  match getString params "name" with
  | some n => .calls n (getArgs params)
  | none => .panics

/-- C9: the split-mode tools/call handler is not total. Whenever the
params lack a `name` key or hold a non-string `name`, it panics instead
of returning a protocol-level error; when `name` is a string the call is
forwarded, with ill-typed `arguments` degraded to the empty map rather
than a panic. -/
theorem claim9_split_call_panics (params : Params) :
    (getString params "name" = none ↔
        alookup params "name" = none ∨
          ∃ v, alookup params "name" = some v ∧ asString v = none)
  ∧ (getString params "name" = none → splitHandleToolsCall params = .panics)
  ∧ (∀ n, getString params "name" = some n →
        splitHandleToolsCall params = .calls n (getArgs params)) := by
  refine ⟨?_, ?_, ?_⟩
  · rw [getString]
    cases h : alookup params "name" with
    | none => simp
    | some v =>
      constructor
      · intro hs
        exact Or.inr ⟨v, rfl, hs⟩
      · rintro (hcon | ⟨w, hw, hws⟩)
        · cases hcon
        · injection hw with hw
          subst hw
          exact hws
  · intro h
    rw [splitHandleToolsCall, h]
  · intro n h
    rw [splitHandleToolsCall, h]

/-- Witness for C9: params with an ill-typed `name` (a number) make the
handler panic, while params with a string `name` and an ill-typed
`arguments` are forwarded with empty arguments. -/
theorem claim9_witness :
    splitHandleToolsCall [("name", JValue.num 3)] = .panics
  ∧ splitHandleToolsCall [("name", JValue.str "y"), ("arguments", JValue.num 1)]
      = .calls "y" [] := by
  constructor
  · exact (claim9_split_call_panics [("name", JValue.num 3)]).2.1 (by decide)
  · exact (claim9_split_call_panics
      [("name", JValue.str "y"), ("arguments", JValue.num 1)]).2.2 "y" (by decide)

/-- Go's `strings.Trim(path, "/")`: remove all leading and trailing
slashes. -/
def trimSlashes (p : String) : String :=
  String.mk
    (((p.toList.dropWhile (fun c => c == '/')).reverse.dropWhile
      (fun c => c == '/')).reverse)

/-- `strings.SplitN(trimmed, "/", 2)[0]`: the first path segment of the
trimmed path (empty when the trimmed path is empty). -/
def firstSegment (p : String) : String :=
  String.mk ((trimSlashes p).toList.takeWhile (fun c => !(c == '/')))

/-- A decoded JSON-RPC envelope: protocol version, method, optional
params object and request id (`none` models a missing or null id). -/
structure RpcRequest where
  jsonrpc : String
  method : String
  params : Option Params
  rid : Option JValue
deriving DecidableEq, Repr

/-- A request body as seen by the engine: either it decodes to an
envelope or it does not. -/
inductive Body where
  | undecodable
  | decoded (rpc : RpcRequest)
deriving DecidableEq, Repr

/-- An HTTP request: verb, URL path and body. -/
structure HttpReq where
  verb : String
  path : String
  body : Body
deriving DecidableEq, Repr

/-- A successful method result. Forwarded tool calls are represented by
their observable effect (which backend was invoked, with what name and
arguments). -/
inductive RpcResult where
  | initRes
  | notifAck
  | toolsList (tools : List Tool)
  | forwarded (backend tool : String) (args : List (String × String))
deriving DecidableEq, Repr

/-- The response written for a request: a transport-level HTTP error, a
JSON-RPC error envelope (code and echoed id), a JSON-RPC result, or a
panic (no response is written). -/
inductive Response where
  | http (status : Nat) (msg : String)
  | rpcErr (code : Int) (rid : Option JValue)
  | rpcOk (rid : Option JValue) (res : RpcResult)
  | panicked
deriving DecidableEq, Repr

/-- The server addressing mode, fixed by configuration. -/
inductive Mode where
  | split
  | flat
deriving DecidableEq, Repr

/-- The mode handler selected for a request: split mode carries the
backend chosen by routing. -/
inductive HandlerKind where
  | splitH (backend : String)
  | flatH
deriving DecidableEq, Repr

/-- `createSplitModeHandler`: select the backend named by the first path
segment; an empty segment or an unknown backend is an error, written by
`handleJSONRPC` as an HTTP 400 before `processRequest` runs. -/
def routeSplit (names : List String) (p : String) : Except String String :=
  if firstSegment p = "" then .error "Server name is required in path"
  else if names.contains (firstSegment p) then .ok (firstSegment p)
  else .error ("Server " ++ firstSegment p ++ " not found")

/-- The method dispatch performed by `processRequest` after envelope
validation (a missing params object was normalized to an empty one by
`validateJSONRPCRequest`, modelled by `Option.getD`). Handler errors
become JSON-RPC internal errors (-32603); the split-mode tools/call panic
surfaces as `panicked`. -/
def methodSwitch (k : HandlerKind) (names : List String) (fetch : Fetch)
    (rpc : RpcRequest) : Response :=
  if rpc.method = "initialize" then .rpcOk rpc.rid .initRes
  else if rpc.method = "notifications/initialized" then .rpcOk rpc.rid .notifAck
  else if rpc.method = "tools/list" then
    match k with
    | .flatH => .rpcOk rpc.rid (.toolsList (listAllTools names fetch))
    | .splitH b =>
      match fetch b with
      | .ok ts => .rpcOk rpc.rid (.toolsList ts)
      | .error _ => .rpcErr (-32603) rpc.rid
  else if rpc.method = "tools/call" then
    match k with
    | .flatH =>
      match callToolAuto names fetch (rpc.params.getD []) with
      | (.invoked b t a, _) => .rpcOk rpc.rid (.forwarded b t a)
      | (.nameRequired, _) => .rpcErr (-32603) rpc.rid
      | (.notFound, _) => .rpcErr (-32603) rpc.rid
    | .splitH b =>
      match splitHandleToolsCall (rpc.params.getD []) with
      | .panics => .panicked
      | .calls n a => .rpcOk rpc.rid (.forwarded b n a)
  else .rpcErr (-32603) rpc.rid

/-- The body-processing tail shared by `processRequest` (and, in the
earlier snapshot, `handleFlatMode`): a parse failure yields the -32700
envelope with a null id; envelope validation failures yield -32600 with
the echoed id; otherwise the method dispatch runs. -/
def bodyStage (k : HandlerKind) (names : List String) (fetch : Fetch) :
    Body → Response
  | .undecodable => .rpcErr (-32700) none
  | .decoded rpc =>
    if rpc.jsonrpc ≠ "2.0" then .rpcErr (-32600) rpc.rid
    else if rpc.method = "" then .rpcErr (-32600) rpc.rid
    else methodSwitch k names fetch rpc

/-- `processRequest` of the current snapshot: readiness gate first, then
the mode handler's validateRequest (a no-op for both handlers in this
snapshot), the POST check, then body processing. -/
def processRequest (k : HandlerKind) (names : List String) (fetch : Fetch)
    (r : HttpReq) : Response :=
  if names.length = 0 then .http 503 "Service not ready"
  else if r.verb ≠ "POST" then .http 405 "Method not allowed"
  else bodyStage k names fetch r.body

/-- `handleJSONRPC` of the current snapshot: flat mode always builds a
handler; split mode routes by path first and reports a routing failure as
HTTP 400 without reaching `processRequest`. -/
def handleJSONRPC (mode : Mode) (names : List String) (fetch : Fetch)
    (r : HttpReq) : Response :=
  match mode with
  | .flat => processRequest .flatH names fetch r
  | .split =>
    match routeSplit names r.path with
    | .error msg => .http 400 msg
    | .ok b => processRequest (.splitH b) names fetch r

/-- `handleReadiness`: 200 when at least one backend is installed, 503
otherwise. -/
def handleReadiness (names : List String) : Nat :=
  if names.length > 0 then 200 else 503

/-- The earlier snapshot's flat-mode handler (`handleFlatMode`):
readiness gate, then the path gate accepting only `/mcp` and `/api/mcp`
with a 404 for every other path, then the POST check and body processing
(that snapshot fetched catalogs without the cache; the same fetch
abstraction covers its direct `ListTools` calls). -/
def handleFlatModeV0 (names : List String) (fetch : Fetch) (r : HttpReq) :
    Response :=
  if names.length = 0 then .http 503 "Service not ready"
  else if trimSlashes r.path ≠ "mcp" ∧ trimSlashes r.path ≠ "api/mcp" then
    .http 404 "Path not found. Use /mcp or /api/mcp"
  else if r.verb ≠ "POST" then .http 405 "Method not allowed"
  else bodyStage .flatH names fetch r.body

theorem methodSwitch_shape (k : HandlerKind) (names : List String)
    (fetch : Fetch) (rpc : RpcRequest) :
    (∃ rid res, methodSwitch k names fetch rpc = .rpcOk rid res)
  ∨ (∃ code rid, methodSwitch k names fetch rpc = .rpcErr code rid)
  ∨ methodSwitch k names fetch rpc = .panicked := by
  rw [methodSwitch.eq_def]
  by_cases h1 : rpc.method = "initialize"
  · rw [if_pos h1]
    exact Or.inl ⟨_, _, rfl⟩
  · rw [if_neg h1]
    by_cases h2 : rpc.method = "notifications/initialized"
    · rw [if_pos h2]
      exact Or.inl ⟨_, _, rfl⟩
    · rw [if_neg h2]
      by_cases h3 : rpc.method = "tools/list"
      · rw [if_pos h3]
        cases k with
        | flatH => exact Or.inl ⟨_, _, rfl⟩
        | splitH b =>
          cases hb : fetch b with
          | ok ts => exact Or.inl ⟨rpc.rid, .toolsList ts, by simp [hb]⟩
          | error e => exact Or.inr (Or.inl ⟨-32603, rpc.rid, by simp [hb]⟩)
      · rw [if_neg h3]
        by_cases h4 : rpc.method = "tools/call"
        · rw [if_pos h4]
          cases k with
          | flatH =>
            rcases hc : callToolAuto names fetch (rpc.params.getD []) with
              ⟨out, w⟩
            cases out with
            | invoked b t a =>
              exact Or.inl ⟨rpc.rid, .forwarded b t a, by simp [hc]⟩
            | nameRequired =>
              exact Or.inr (Or.inl ⟨-32603, rpc.rid, by simp [hc]⟩)
            | notFound =>
              exact Or.inr (Or.inl ⟨-32603, rpc.rid, by simp [hc]⟩)
          | splitH b =>
            cases hs : splitHandleToolsCall (rpc.params.getD []) with
            | panics => exact Or.inr (Or.inr (by simp [hs]))
            | calls n a =>
              exact Or.inl ⟨rpc.rid, .forwarded b n a, by simp [hs]⟩
        · rw [if_neg h4]
          exact Or.inr (Or.inl ⟨_, _, rfl⟩)

theorem methodSwitch_ne_http (k : HandlerKind) (names : List String)
    (fetch : Fetch) (rpc : RpcRequest) (st : Nat) (m : String) :
    methodSwitch k names fetch rpc ≠ .http st m := by
  rcases methodSwitch_shape k names fetch rpc with ⟨rid, res, h⟩ | ⟨c, rid, h⟩ | h
    <;> rw [h] <;> intro hcon <;> cases hcon

theorem bodyStage_ne_http (k : HandlerKind) (names : List String)
    (fetch : Fetch) (b : Body) (st : Nat) (m : String) :
    bodyStage k names fetch b ≠ .http st m := by
  cases b with
  | undecodable =>
    rw [bodyStage]
    intro hcon
    cases hcon
  | decoded rpc =>
    rw [bodyStage]
    by_cases hj : rpc.jsonrpc ≠ "2.0"
    · rw [if_pos hj]
      intro hcon
      cases hcon
    · rw [if_neg hj]
      by_cases hm : rpc.method = ""
      · rw [if_pos hm]
        intro hcon
        cases hcon
      · rw [if_neg hm]
        exact methodSwitch_ne_http k names fetch rpc st m

theorem processRequest_ne_notReady (k : HandlerKind) (names : List String)
    (fetch : Fetch) (r : HttpReq) (hne : names ≠ []) :
    processRequest k names fetch r ≠ .http 503 "Service not ready" := by
  have hlen : ¬ names.length = 0 := by
    intro h
    exact hne (List.length_eq_zero.mp h)
  rw [processRequest, if_neg hlen]
  by_cases hv : r.verb ≠ "POST"
  · rw [if_pos hv]
    intro hcon
    simp at hcon
  · rw [if_neg hv]
    exact bodyStage_ne_http k names fetch r.body 503 "Service not ready"

/-- C5 counterexample: in split mode with the empty registry, a POST to
path `/a` does not receive the service-unavailable response; backend
lookup fails first with a 400 client error, because split-mode routing
runs in `handleJSONRPC` before the readiness gate of `processRequest`. -/
theorem claim5_counterexample :
    handleJSONRPC .split [] (fun _ => Except.error "down")
        ⟨"POST", "/a", .undecodable⟩
      = .http 400 "Server a not found"
  ∧ handleJSONRPC .split [] (fun _ => Except.error "down")
        ⟨"POST", "/a", .undecodable⟩
      ≠ .http 503 "Service not ready" := by
  constructor
  · decide
  · decide

/-- C5, amended: the readiness probe returns success iff the installed
mapping is non-empty and service-unavailable iff it is empty; with an
empty mapping, every flat-mode dispatch request (any path, any verb) and
every request reaching `processRequest` returns the 503 response, while
every split-mode request fails routing with a 400 client error before
the gate; with a non-empty mapping, no dispatch request receives the
gate's 503 response. -/
theorem claim5_readiness_amended (names : List String) (fetch : Fetch)
    (r : HttpReq) (mode : Mode) (k : HandlerKind) :
    (handleReadiness names = 200 ↔ names ≠ [])
  ∧ (handleReadiness names = 503 ↔ names = [])
  ∧ (names = [] →
        handleJSONRPC .flat names fetch r = .http 503 "Service not ready")
  ∧ (names = [] →
        processRequest k names fetch r = .http 503 "Service not ready")
  ∧ (names = [] →
        ∃ msg, handleJSONRPC .split names fetch r = .http 400 msg)
  ∧ (names ≠ [] →
        handleJSONRPC mode names fetch r ≠ .http 503 "Service not ready") := by
  refine ⟨?_, ?_, ?_, ?_, ?_, ?_⟩
  · rw [handleReadiness]
    cases names with
    | nil => simp
    | cons a l => simp
  · rw [handleReadiness]
    cases names with
    | nil => simp
    | cons a l => simp
  · intro h
    subst h
    rfl
  · intro h
    subst h
    rfl
  · intro h
    subst h
    by_cases hseg : firstSegment r.path = ""
    · exact ⟨"Server name is required in path",
        by simp [handleJSONRPC, routeSplit, hseg]⟩
    · exact ⟨"Server " ++ firstSegment r.path ++ " not found",
        by simp [handleJSONRPC, routeSplit, hseg]⟩
  · intro hne
    cases mode with
    | flat => exact processRequest_ne_notReady .flatH names fetch r hne
    | split =>
      cases hroute : routeSplit names r.path with
      | error msg => simp [handleJSONRPC, hroute]
      | ok b =>
        simp only [handleJSONRPC, hroute]
        exact processRequest_ne_notReady (.splitH b) names fetch r hne

/-- Witness for C5 (amended): a singleton registry reports ready, and
with the empty registry even a malformed GET to an arbitrary path gets
the 503 gate response from `processRequest`. -/
theorem claim5_witness :
    handleReadiness ["a"] = 200
  ∧ processRequest .flatH [] (fun _ => Except.error "down")
      ⟨"GET", "/weird", .undecodable⟩ = .http 503 "Service not ready" := by
  constructor
  · exact (claim5_readiness_amended ["a"] (fun _ => Except.error "down")
      ⟨"GET", "/weird", .undecodable⟩ .flat .flatH).1.mpr (by decide)
  · exact (claim5_readiness_amended [] (fun _ => Except.error "down")
      ⟨"GET", "/weird", .undecodable⟩ .flat .flatH).2.2.2.1 rfl

/-- C7 counterexample: in split mode on a ready server, a POST with an
undecodable body to a path naming an unregistered backend gets the 400
routing error, not the -32700 parse error, so the parse-error behavior
does not hold regardless of path in split mode. -/
theorem claim7_counterexample :
    handleJSONRPC .split ["a"] (fun _ => Except.error "down")
        ⟨"POST", "/b", .undecodable⟩
      = .http 400 "Server b not found"
  ∧ handleJSONRPC .split ["a"] (fun _ => Except.error "down")
        ⟨"POST", "/b", .undecodable⟩
      ≠ .rpcErr (-32700) none := by
  constructor
  · decide
  · decide

/-- C7, amended: for every POST request on a ready server whose body does
not decode, the parse-error envelope with a null id is returned, in flat
mode for any path, and in split mode whenever the first path segment
names a registered backend; requests that fail split-mode routing receive
a transport-level 400 before the body is parsed. -/
theorem claim7_parse_error_amended (names : List String) (fetch : Fetch)
    (r : HttpReq) :
    (names ≠ [] → r.verb = "POST" → r.body = .undecodable →
        handleJSONRPC .flat names fetch r = .rpcErr (-32700) none)
  ∧ (∀ b : String, names ≠ [] → r.verb = "POST" → r.body = .undecodable →
        firstSegment r.path = b → b ≠ "" → names.contains b = true →
        handleJSONRPC .split names fetch r = .rpcErr (-32700) none) := by
  constructor
  · intro hne hV hB
    have hlen : ¬ names.length = 0 := by
      intro h0
      exact hne (List.length_eq_zero.mp h0)
    have hv : ¬ r.verb ≠ "POST" := fun hc => hc hV
    simp only [handleJSONRPC]
    rw [processRequest, if_neg hlen, if_neg hv, hB, bodyStage]
  · intro b hne hV hB hseg hbne hc
    have hlen : ¬ names.length = 0 := by
      intro h0
      exact hne (List.length_eq_zero.mp h0)
    have hv : ¬ r.verb ≠ "POST" := fun hcon => hcon hV
    have hroute : routeSplit names r.path = .ok b := by
      rw [routeSplit, hseg, if_neg hbne, if_pos hc]
    simp only [handleJSONRPC, hroute]
    rw [processRequest, if_neg hlen, if_neg hv, hB, bodyStage]

/-- Witness for C7 (amended): on a ready server, an undecodable POST body
yields the parse error with a null id, in flat mode on an arbitrary path
and in split mode on the path of the registered backend. -/
theorem claim7_witness :
    handleJSONRPC .flat ["a"] (fun _ => Except.error "down")
        ⟨"POST", "/definitely/not/mcp", .undecodable⟩
      = .rpcErr (-32700) none
  ∧ handleJSONRPC .split ["a"] (fun _ => Except.error "down")
        ⟨"POST", "/a/anything", .undecodable⟩
      = .rpcErr (-32700) none := by
  constructor
  · exact (claim7_parse_error_amended ["a"] (fun _ => Except.error "down")
      ⟨"POST", "/definitely/not/mcp", .undecodable⟩).1 (by decide) rfl rfl
  · exact (claim7_parse_error_amended ["a"] (fun _ => Except.error "down")
      ⟨"POST", "/a/anything", .undecodable⟩).2 "a" (by decide) rfl rfl
      (by decide) (by decide) (by decide)

/-- C8, settled as a code bug: the flat-mode path gate was dropped in the
ModeHandler refactor. On the same ready server and the same POST to
`/xyz` (trimmed path `xyz`, neither `mcp` nor `api/mcp`) carrying a valid
initialize envelope, the current snapshot's handler dispatches the
request normally and returns the initialize result — its
`FlatModeHandler.validateRequest` performs no path check — while the
earlier snapshot's `handleFlatMode` returns the 404 path error before
dispatching, which is the behavior the claim (and the spec) states. -/
theorem claim8_path_gate_dropped :
    handleJSONRPC .flat ["a"] (fun _ => Except.error "down")
        ⟨"POST", "/xyz", .decoded ⟨"2.0", "initialize", none, none⟩⟩
      = .rpcOk none .initRes
  ∧ handleFlatModeV0 ["a"] (fun _ => Except.error "down")
        ⟨"POST", "/xyz", .decoded ⟨"2.0", "initialize", none, none⟩⟩
      = .http 404 "Path not found. Use /mcp or /api/mcp" := by
  constructor
  · decide
  · decide
